import Mathlib

/-!
Verification of the schema-to-binding type mapper (godot-codegen `util.rs`).

The source operates on UTF-8 byte strings (`class_name.bytes()`), so strings
are embedded as `List Nat` of byte values.  Each definition below is a direct
translation of the corresponding Rust function; the Rust string literals are
given as explicit ASCII byte lists next to a comment showing the literal.
-/

/-- Byte list of an ASCII string literal (convenience for concrete inputs). -/
def bytes (s : String) : List Nat := s.toList.map Char.toNat

/-- `u8::is_ascii_digit`. -/
def is_ascii_digit (c : Nat) : Bool := decide (48 ≤ c ∧ c ≤ 57)

/-- `u8::is_ascii_uppercase`. -/
def is_ascii_uppercase (c : Nat) : Bool := decide (65 ≤ c ∧ c ≤ 90)

/-- `u8::is_ascii_lowercase`. -/
def is_ascii_lowercase (c : Nat) : Bool := decide (97 ≤ c ∧ c ≤ 122)

/-- `u8::to_ascii_lowercase`: uppercase letters are shifted by 32, everything
else is unchanged. -/
def to_ascii_lowercase (c : Nat) : Nat :=
  if is_ascii_uppercase c then c + 32 else c

/-- `is_upper_or_num` from `to_module_name`: `None` is not upper or number. -/
def is_upper_or_num : Option Nat → Bool
  | some ch => is_ascii_digit ch || is_ascii_uppercase ch
  | none => false

/-- `is_lower_or` from `to_module_name`: `None` takes the given default. -/
def is_lower_or : Option Nat → Bool → Bool
  | some ch, _ => is_ascii_lowercase ch
  | none, d => d

/-- The separator decision of the `to_module_name` loop body for the current
character `c`, given the 2-element look-behind `(p2, p1)` and the peeked next
character `nx`: `caps_to_lowercase || lower_to_uppercase`. -/
def sepQ (p2 p1 : Option Nat) (c : Nat) (nx : Option Nat) : Bool :=
  (is_upper_or_num p1 && is_upper_or_num (some c) && is_lower_or nx false
      && !(is_lower_or p2 true))
  || (is_lower_or p1 false && is_upper_or_num (some c))

/-- The `while let` loop of `to_module_name`: walks the (underscore-stripped)
bytes with a 2-element look-behind `(p2, p1)`, pushing `'_'` (byte 95) when
`sepQ` fires and then the lowercased current byte. -/
def tmn_loop : List Nat → Option Nat → Option Nat → List Nat
  | [], _, _ => []
  | c :: rest, p2, p1 =>
    let tail := tmn_loop rest p1 (some c)
    if sepQ p2 p1 c rest.head? then 95 :: to_ascii_lowercase c :: tail
    else to_ascii_lowercase c :: tail

/-- `pat` is a leading segment of `l` (the `str::starts_with` test). -/
def leadEq : List Nat → List Nat → Bool
  | [], _ => true
  | _ :: _, [] => false
  | p :: ps, c :: cs => p == c && leadEq ps cs

/-- `str::ends_with`: `pat` is a trailing segment of `l`. -/
def tailEq (pat l : List Nat) : Bool := leadEq pat.reverse l.reverse

/-- `result.find(pat)` + `replace_range`: replace the leftmost occurrence of
`pat` (if any) by `rep`, leave the string unchanged otherwise. -/
def replaceFirst : List Nat → List Nat → List Nat → List Nat
  | [], _, _ => []
  | c :: rest, pat, rep =>
    if leadEq pat (c :: rest) then rep ++ (c :: rest).drop pat.length
    else c :: replaceFirst rest pat rep

-- Byte lists for the string literals appearing in `to_module_name`.
/-- "_vec_3" -/
def vecPat : List Nat := [95, 118, 101, 99, 95, 51]
/-- "_vec3_" -/
def vecRep : List Nat := [95, 118, 101, 99, 51, 95]
/-- "gd_native" -/
def gdnPat : List Nat := [103, 100, 95, 110, 97, 116, 105, 118, 101]
/-- "gdnative" -/
def gdnRep : List Nat := [103, 100, 110, 97, 116, 105, 118, 101]
/-- "gd_script" -/
def gdsPat : List Nat := [103, 100, 95, 115, 99, 114, 105, 112, 116]
/-- "gdscript" -/
def gdsRep : List Nat := [103, 100, 115, 99, 114, 105, 112, 116]

/-- `to_module_name` up to (and including) the three literal substring
corrections, i.e. everything before the final `gdnative` collision check. -/
def tmn_core (class_name : List Nat) : List Nat :=
  let stripped := class_name.filter (fun b => b != 95)
  let r0 := tmn_loop stripped none none
  let r1 := replaceFirst r0 vecPat vecRep
  let r2 := replaceFirst r1 gdnPat gdnRep
  replaceFirst r2 gdsPat gdsRep

/-- `to_module_name`: snake-case conversion with the exception table and the
final rename of a bare `gdnative` result to `gdnative_`. -/
def to_module_name (class_name : List Nat) : List Nat :=
  let r := tmn_core class_name
  if r = gdnRep then gdnRep ++ [95] else r

/-- The name component of `format_ident!("{}", s)`: the name is kept
unchanged.  `format_ident!` additionally materializes the identifier through
`proc_macro2::Ident::new`, which panics on lexically invalid names; that
validity check is modeled separately by `identChecked` below. -/
def ident (s : List Nat) : List Nat := s

/-- `make_enum_name`: currently just `ident`. -/
def make_enum_name (enum_name : List Nat) : List Nat := ident enum_name

/-- The reserved-word table of `safe_ident` (Rust keywords, reserved words,
and `Self`). -/
def rust_keywords : List (List Nat) :=
  [bytes "as", bytes "break", bytes "const", bytes "continue", bytes "crate",
   bytes "else", bytes "enum", bytes "extern", bytes "false", bytes "fn",
   bytes "for", bytes "if", bytes "impl", bytes "in", bytes "let",
   bytes "loop", bytes "match", bytes "mod", bytes "move", bytes "mut",
   bytes "pub", bytes "ref", bytes "return", bytes "self", bytes "Self",
   bytes "static", bytes "struct", bytes "super", bytes "trait", bytes "true",
   bytes "type", bytes "unsafe", bytes "use", bytes "where", bytes "while",
   bytes "async", bytes "await", bytes "dyn",
   bytes "abstract", bytes "become", bytes "box", bytes "do", bytes "final",
   bytes "macro", bytes "override", bytes "priv", bytes "typeof",
   bytes "unsized", bytes "virtual", bytes "yield",
   bytes "try"]

/-- `safe_ident`: append a trailing `'_'` on exact keyword collision,
otherwise return the identifier unchanged. -/
def safe_ident (s : List Nat) : List Nat :=
  if s ∈ rust_keywords then s ++ [95] else s

/-- First byte of a lexically valid Rust identifier: ASCII letter or `'_'`. -/
def is_ident_start (c : Nat) : Bool :=
  is_ascii_uppercase c || is_ascii_lowercase c || c == 95

/-- Later byte of a lexically valid Rust identifier: start byte or digit. -/
def is_ident_continue (c : Nat) : Bool := is_ident_start c || is_ascii_digit c

/-- Modelled from the spec: lexical validity of an identifier name, as
checked by `proc_macro2::Ident::new` (an external crate, not part of this
repository), restricted to ASCII: nonempty, a letter-or-underscore first
byte, letter/digit/underscore afterwards. -/
def is_valid_ident : List Nat → Bool
  | [] => false
  | c :: rest => is_ident_start c && rest.all is_ident_continue

/-- Modelled from the spec: the identifier materialization performed by
`format_ident!("{}", s)` via `proc_macro2::Ident::new`, which panics (here:
`none`) unless the name is lexically valid. -/
def identChecked (s : List Nat) : Option (List Nat) :=
  if is_valid_ident s then some (ident s) else none

/-- `safe_ident` with the identifier materialization made explicit: the
keyword branch builds `format_ident!("{}_", s)`, the other branch
`ident(s)`; either call panics on a lexically invalid result. -/
def safe_ident_checked (s : List Nat) : Option (List Nat) :=
  if s ∈ rust_keywords then identChecked (s ++ [95]) else identChecked s

-- Byte lists for the string literals appearing in `to_rust_type`.
/-- "enum::" -/
def qualEnum : List Nat := [101, 110, 117, 109, 58, 58]
/-- "bitfield::" -/
def qualBitfield : List Nat := [98, 105, 116, 102, 105, 101, 108, 100, 58, 58]
/-- "typedarray::" -/
def qualTypedarray : List Nat :=
  [116, 121, 112, 101, 100, 97, 114, 114, 97, 121, 58, 58]
/-- "Packed" -/
def packedLit : List Nat := [80, 97, 99, 107, 101, 100]
/-- "Array" -/
def arrayLit : List Nat := [65, 114, 114, 97, 121]

/-- `str::strip_prefix`. -/
def stripPfx (pat l : List Nat) : Option (List Nat) :=
  if leadEq pat l then some (l.drop pat.length) else none

/-- `str::split_once(sep)`: split at the first occurrence of `sep`. -/
def splitOnce (sep : Nat) : List Nat → Option (List Nat × List Nat)
  | [] => none
  | c :: rest =>
    if c = sep then some ([], rest)
    else
      match splitOnce sep rest with
      | some (a, b) => some (c :: a, b)
      | none => none

/-- Path of a generated enum type inside `RustTy::EngineEnum` tokens:
either class-local `module::EnumName` or `global::EnumName`. -/
inductive EnumPath where
  | classLocal (module enumName : List Nat)
  | global (enumName : List Nat)
deriving DecidableEq

/-- The `RustTy` sum type: builtin identifier, parametrized builtin container
(`TypedArray<elem>`), engine enum path, or engine class handle (`Gd<name>`). -/
inductive RustTy where
  | BuiltinIdent (name : List Nat)
  | BuiltinGeneric (elem : RustTy)
  | EngineEnum (path : EnumPath)
  | EngineClass (name : List Nat)
deriving DecidableEq

/-- `to_hardcoded_rust_type`: the fixed override table. -/
def to_hardcoded_rust_type (ty : List Nat) : Option (List Nat) :=
  if ty = bytes "int" then some (bytes "i64")
  else if ty = bytes "float" then some (bytes "f64")
  else if ty = bytes "String" then some (bytes "GodotString")
  else if ty = bytes "enum::Variant.Type" then some (bytes "VariantType")
  else if ty = bytes "enum::Variant.Operator" then some (bytes "VariantOperator")
  else if ty = bytes "enum::Vector3.Axis" then some (bytes "Vector3Axis")
  else none

/-- `to_rust_type`, with an explicit fuel argument for the recursion in the
`typedarray::` branch.  Each recursive call strips the 12-byte
`typedarray::` qualifier, so any fuel at least the input length never runs
out; the fuel-0 branch is unreachable for the wrapper below.
The class registry `ctx.is_engine_class` is the injected `reg`. -/
def to_rust_type_f (fuel : Nat) (ty : List Nat) (reg : List Nat → Bool) : RustTy :=
  match to_hardcoded_rust_type ty with
  | some hardcoded => RustTy.BuiltinIdent (ident hardcoded)
  | none =>
    -- ty.strip_prefix("enum::").or_else(|| ty.strip_prefix("bitfield::"))
    match (match stripPfx qualEnum ty with
           | some q => some q
           | none => stripPfx qualBitfield ty) with
    | some qualified_enum =>
      match splitOnce 46 qualified_enum with
      | some (cls, e) =>
        RustTy.EngineEnum (EnumPath.classLocal (ident (to_module_name cls)) (make_enum_name e))
      | none => RustTy.EngineEnum (EnumPath.global (make_enum_name qualified_enum))
    | none =>
      match stripPfx packedLit ty with
      | some packed_arr_ty =>
        -- Don't trigger on PackedScene: the remainder must end with "Array";
        -- otherwise control falls through to the engine-class check.
        if tailEq arrayLit packed_arr_ty then RustTy.BuiltinIdent (ident packed_arr_ty)
        else if reg ty then RustTy.EngineClass (ident ty)
        else RustTy.BuiltinIdent (ident ty)
      | none =>
        match stripPfx qualTypedarray ty with
        | some arr_ty =>
          match stripPfx packedLit arr_ty with
          | some packed_arr_ty => RustTy.BuiltinIdent (ident packed_arr_ty)
          | none =>
            match fuel with
            | 0 => RustTy.BuiltinIdent (ident ty)
            | f + 1 => RustTy.BuiltinGeneric (to_rust_type_f f arr_ty reg)
        | none =>
          if reg ty then RustTy.EngineClass (ident ty)
          else RustTy.BuiltinIdent (ident ty)

/-- `to_rust_type(ty, ctx)`. -/
def to_rust_type (ty : List Nat) (reg : List Nat → Bool) : RustTy :=
  to_rust_type_f ty.length ty reg

/-- One enumerator of a schema enum: name and declared `i32` value. -/
structure Enumerator where
  name : List Nat
  value : Int
deriving DecidableEq

/-- The parsed enum descriptor consumed by `make_enum_definition`
(the `&dyn Enum` trait object: `name()`, `values()`, `is_bitfield()`). -/
structure EnumInfo where
  name : List Nat
  values : List Enumerator
  is_bitfield : Bool
deriving DecidableEq

/-- A value of a generated enum type: `#[repr(transparent)] struct { ord: i32 }`.
The `i32` field is embedded as its 32-bit two's-complement bit pattern. -/
structure EnumVal where
  ord : Nat
deriving DecidableEq

/-- The 32-bit two's-complement bit pattern of an `i32` value. -/
def i32pat (v : Int) : Nat := (v % (4294967296 : Int)).toNat

/-- The public `ord()` accessor: `self.ord as i64` (sign-extending widening). -/
def ordI64 (v : EnumVal) : Int :=
  if v.ord < 2147483648 then (v.ord : Int) else (v.ord : Int) - 4294967296

/-- The generated `BitOr` impl for bitfield types:
`Self { ord: self.ord | rhs.ord }`. -/
def enumValBitOr (a b : EnumVal) : EnumVal := ⟨Nat.lor a.ord b.ord⟩

/-- The generated `UNSET` constant for bitfield types: `Self { ord: 0 }`. -/
def UNSET : EnumVal := ⟨0⟩

/-- The enum definition artifact emitted by `make_enum_definition`: type name,
one named constant per enumerator, plus for bitfields the `UNSET` constant
and the `BitOr` impl (whose semantics are `enumValBitOr`). -/
structure EnumDefinition where
  name : List Nat
  constants : List (List Nat × EnumVal)
  unsetConstant : Option EnumVal
  hasBitOrImpl : Bool
deriving DecidableEq

/-- `make_enum_definition`. -/
def make_enum_definition (e : EnumInfo) : EnumDefinition :=
  { name := ident e.name
  , constants := e.values.map (fun en => (make_enum_name en.name, ⟨i32pat en.value⟩))
  , unsetConstant := if e.is_bitfield then some UNSET else none
  , hasBitOrImpl := e.is_bitfield }

lemma trtf_hc {fuel ty reg h} (hh : to_hardcoded_rust_type ty = some h) :
    to_rust_type_f fuel ty reg = RustTy.BuiltinIdent h := by
  rw [to_rust_type_f, hh]
  rfl

lemma trtf_enum_local {fuel ty reg q cls e} (h0 : to_hardcoded_rust_type ty = none)
    (h1 : stripPfx qualEnum ty = some q) (h2 : splitOnce 46 q = some (cls, e)) :
    to_rust_type_f fuel ty reg =
      RustTy.EngineEnum (EnumPath.classLocal (to_module_name cls) e) := by
  rw [to_rust_type_f]
  simp only [h0, h1, h2]
  rfl

lemma trtf_enum_global {fuel ty reg q} (h0 : to_hardcoded_rust_type ty = none)
    (h1 : stripPfx qualEnum ty = some q) (h2 : splitOnce 46 q = none) :
    to_rust_type_f fuel ty reg = RustTy.EngineEnum (EnumPath.global q) := by
  rw [to_rust_type_f]
  simp only [h0, h1, h2]
  rfl

lemma trtf_bitfield_local {fuel ty reg q cls e} (h0 : to_hardcoded_rust_type ty = none)
    (h1 : stripPfx qualEnum ty = none) (h1b : stripPfx qualBitfield ty = some q)
    (h2 : splitOnce 46 q = some (cls, e)) :
    to_rust_type_f fuel ty reg =
      RustTy.EngineEnum (EnumPath.classLocal (to_module_name cls) e) := by
  rw [to_rust_type_f]
  simp only [h0, h1, h1b, h2]
  rfl

lemma trtf_bitfield_global {fuel ty reg q} (h0 : to_hardcoded_rust_type ty = none)
    (h1 : stripPfx qualEnum ty = none) (h1b : stripPfx qualBitfield ty = some q)
    (h2 : splitOnce 46 q = none) :
    to_rust_type_f fuel ty reg = RustTy.EngineEnum (EnumPath.global q) := by
  rw [to_rust_type_f]
  simp only [h0, h1, h1b, h2]
  rfl

lemma trtf_packed {fuel ty reg p} (h0 : to_hardcoded_rust_type ty = none)
    (h1 : stripPfx qualEnum ty = none) (h1b : stripPfx qualBitfield ty = none)
    (h2 : stripPfx packedLit ty = some p) (h3 : tailEq arrayLit p = true) :
    to_rust_type_f fuel ty reg = RustTy.BuiltinIdent p := by
  rw [to_rust_type_f]
  simp only [h0, h1, h1b, h2, h3]
  rfl

lemma trtf_packed_no_array {fuel ty reg p} (h0 : to_hardcoded_rust_type ty = none)
    (h1 : stripPfx qualEnum ty = none) (h1b : stripPfx qualBitfield ty = none)
    (h2 : stripPfx packedLit ty = some p) (h3 : tailEq arrayLit p = false) :
    to_rust_type_f fuel ty reg =
      if reg ty then RustTy.EngineClass ty else RustTy.BuiltinIdent ty := by
  rw [to_rust_type_f]
  simp only [h0, h1, h1b, h2, h3]
  rfl

lemma trtf_tda_packed {fuel ty reg arr p} (h0 : to_hardcoded_rust_type ty = none)
    (h1 : stripPfx qualEnum ty = none) (h1b : stripPfx qualBitfield ty = none)
    (h2 : stripPfx packedLit ty = none) (h3 : stripPfx qualTypedarray ty = some arr)
    (h4 : stripPfx packedLit arr = some p) :
    to_rust_type_f fuel ty reg = RustTy.BuiltinIdent p := by
  rw [to_rust_type_f]
  simp only [h0, h1, h1b, h2, h3, h4]
  rfl

lemma trtf_tda_rec {fuel ty reg arr} (h0 : to_hardcoded_rust_type ty = none)
    (h1 : stripPfx qualEnum ty = none) (h1b : stripPfx qualBitfield ty = none)
    (h2 : stripPfx packedLit ty = none) (h3 : stripPfx qualTypedarray ty = some arr)
    (h4 : stripPfx packedLit arr = none) :
    to_rust_type_f (fuel + 1) ty reg = RustTy.BuiltinGeneric (to_rust_type_f fuel arr reg) := by
  rw [to_rust_type_f]
  simp only [h0, h1, h1b, h2, h3, h4]

lemma trtf_fallback {fuel ty reg} (h0 : to_hardcoded_rust_type ty = none)
    (h1 : stripPfx qualEnum ty = none) (h1b : stripPfx qualBitfield ty = none)
    (h2 : stripPfx packedLit ty = none) (h3 : stripPfx qualTypedarray ty = none) :
    to_rust_type_f fuel ty reg =
      if reg ty then RustTy.EngineClass ty else RustTy.BuiltinIdent ty := by
  rw [to_rust_type_f]
  simp only [h0, h1, h1b, h2, h3]
  rfl

lemma leadEq_length {p l : List Nat} (h : leadEq p l = true) : p.length ≤ l.length := by
  induction p generalizing l with
  | nil => simp
  | cons x ps ih =>
    cases l with
    | nil => simp [leadEq] at h
    | cons c cs =>
      simp only [leadEq, Bool.and_eq_true] at h
      simpa [List.length_cons] using ih h.2

lemma leadEq_append_self {l : List Nat} (p : List Nat) : leadEq p (p ++ l) = true := by
  induction p with
  | nil => rfl
  | cons x ps ih => simp [leadEq, ih]

lemma leadEq_eq_append {p l : List Nat} (h : leadEq p l = true) :
    l = p ++ l.drop p.length := by
  induction p generalizing l with
  | nil => simp
  | cons x ps ih =>
    cases l with
    | nil => simp [leadEq] at h
    | cons c cs =>
      simp only [leadEq, Bool.and_eq_true, beq_iff_eq] at h
      obtain ⟨rfl, h2⟩ := h
      simpa using ih h2

lemma leadEq_mem {p l : List Nat} (h : leadEq p l = true) : ∀ x ∈ p, x ∈ l := by
  intro x hx
  rw [leadEq_eq_append h]
  exact List.mem_append_left _ hx

lemma leadEq_append_of_le {p a : List Nat} (b : List Nat) (h : p.length ≤ a.length) :
    leadEq p (a ++ b) = leadEq p a := by
  induction p generalizing a with
  | nil => rfl
  | cons x ps ih =>
    cases a with
    | nil => simp at h
    | cons c cs =>
      simp only [List.cons_append, leadEq, List.append_eq]
      rw [ih (by simpa using h)]

lemma stripPfx_some {pat l : List Nat} (h : leadEq pat l = true) :
    stripPfx pat l = some (l.drop pat.length) := by
  simp [stripPfx, h]

lemma stripPfx_append (pat l : List Nat) :
    stripPfx pat (pat ++ l) = some l := by
  simp [stripPfx, leadEq_append_self, List.drop_left]

lemma stripPfx_none {pat l : List Nat} (h : leadEq pat l = false) :
    stripPfx pat l = none := by
  simp [stripPfx, h]

lemma to_rust_type_f_fuel : ∀ fuel ty reg, ty.length ≤ fuel →
    to_rust_type_f fuel ty reg = to_rust_type ty reg := by
  intro fuel
  induction fuel using Nat.strong_induction_on with
  | _ fuel ih =>
    intro ty reg hlen
    unfold to_rust_type
    cases h0 : to_hardcoded_rust_type ty with
    | some h => rw [trtf_hc h0, trtf_hc h0]
    | none =>
    cases h1 : stripPfx qualEnum ty with
    | some q =>
      cases h2 : splitOnce 46 q with
      | some ce =>
        obtain ⟨cls, e⟩ := ce
        rw [trtf_enum_local h0 h1 h2, trtf_enum_local h0 h1 h2]
      | none => rw [trtf_enum_global h0 h1 h2, trtf_enum_global h0 h1 h2]
    | none =>
    cases h1b : stripPfx qualBitfield ty with
    | some q =>
      cases h2 : splitOnce 46 q with
      | some ce =>
        obtain ⟨cls, e⟩ := ce
        rw [trtf_bitfield_local h0 h1 h1b h2, trtf_bitfield_local h0 h1 h1b h2]
      | none => rw [trtf_bitfield_global h0 h1 h1b h2, trtf_bitfield_global h0 h1 h1b h2]
    | none =>
    cases h2 : stripPfx packedLit ty with
    | some p =>
      cases h3 : tailEq arrayLit p with
      | true => rw [trtf_packed h0 h1 h1b h2 h3, trtf_packed h0 h1 h1b h2 h3]
      | false => rw [trtf_packed_no_array h0 h1 h1b h2 h3, trtf_packed_no_array h0 h1 h1b h2 h3]
    | none =>
    cases h3 : stripPfx qualTypedarray ty with
    | some arr =>
      cases h4 : stripPfx packedLit arr with
      | some p => rw [trtf_tda_packed h0 h1 h1b h2 h3 h4, trtf_tda_packed h0 h1 h1b h2 h3 h4]
      | none =>
        have harr : arr = ty.drop 12 ∧ 12 ≤ ty.length := by
          unfold stripPfx at h3
          by_cases hle : leadEq qualTypedarray ty = true
          · refine ⟨?_, ?_⟩
            · simp [hle] at h3
              exact h3.symm
            · simpa [qualTypedarray] using leadEq_length hle
          · simp [hle] at h3
        obtain ⟨rfl, h12⟩ := harr
        have hdlen : (ty.drop 12).length = ty.length - 12 := List.length_drop 12 ty
        obtain ⟨f, rfl⟩ : ∃ f, fuel = f + 1 := ⟨fuel - 1, by omega⟩
        obtain ⟨m, hm⟩ : ∃ m, ty.length = m + 1 := ⟨ty.length - 1, by omega⟩
        rw [hm, trtf_tda_rec h0 h1 h1b h2 h3 h4, trtf_tda_rec h0 h1 h1b h2 h3 h4]
        have e1 : to_rust_type_f f (ty.drop 12) reg = to_rust_type (ty.drop 12) reg :=
          ih f (by omega) _ reg (by omega)
        have e2 : to_rust_type_f m (ty.drop 12) reg = to_rust_type (ty.drop 12) reg :=
          ih m (by omega) _ reg (by omega)
        rw [e1, e2]
    | none => rw [trtf_fallback h0 h1 h1b h2 h3, trtf_fallback h0 h1 h1b h2 h3]

-- splitOnce at the first separator
lemma splitOnce_append {cls : List Nat} (en : List Nat) (h : ∀ x ∈ cls, x ≠ 46) :
    splitOnce 46 (cls ++ 46 :: en) = some (cls, en) := by
  induction cls with
  | nil => simp [splitOnce]
  | cons c cs ih =>
    have hc : c ≠ 46 := h c (by simp)
    simp only [List.cons_append, splitOnce, hc, if_false, List.append_eq]
    rw [ih (fun x hx => h x (by simp [hx]))]

lemma splitOnce_none {l : List Nat} (h : ∀ x ∈ l, x ≠ 46) :
    splitOnce 46 l = none := by
  induction l with
  | nil => rfl
  | cons c cs ih =>
    have hc : c ≠ 46 := h c (by simp)
    simp only [splitOnce, hc, if_false]
    rw [ih (fun x hx => h x (by simp [hx]))]

/-- Claim C1 counterexample: identifier materialization aborts on invalid
names: `safe_ident("")` and `safe_ident("123")` panic in the real code
(modeled: `none`), and the resolver fallback reaches `ident("foo.bar")`,
a lexically invalid name, so "no input string causes any of these functions
to abort" is false. -/
theorem spec_c1_counterexample :
    safe_ident_checked (bytes "") = none ∧
    safe_ident_checked (bytes "123") = none ∧
    is_valid_ident (bytes "foo.bar") = false ∧
    identChecked (bytes "foo.bar") = none ∧
    to_rust_type (bytes "foo.bar") (fun _ => false) =
      RustTy.BuiltinIdent (bytes "foo.bar") := by decide

lemma valid_ident_append_95 {s : List Nat} (h : is_valid_ident s = true) :
    is_valid_ident (s ++ [95]) = true := by
  cases s with
  | nil => simp [is_valid_ident] at h
  | cons c rest =>
    rw [List.cons_append]
    simp only [is_valid_ident, Bool.and_eq_true, List.all_append] at h ⊢
    refine ⟨h.1, h.2, ?_⟩
    decide

/-- Claim C1 (amended): `to_module_name` is total (the empty string yields
the empty string) and the resolution logic itself never signals errors — a
name matched by no rule and unknown to the registry falls back to
`BuiltinIdent` of the unchanged name — but identifier materialization
(`format_ident!` / `Ident::new`) panics on lexically invalid names, so
abort-freedom holds only for names that are valid identifiers: on those,
`safe_ident` never aborts and returns the name unchanged or with a single
trailing separator. -/
theorem spec_c1_total_fallback :
    (∀ (ty : List Nat) (reg : List Nat → Bool),
        to_hardcoded_rust_type ty = none →
        stripPfx qualEnum ty = none → stripPfx qualBitfield ty = none →
        stripPfx packedLit ty = none → stripPfx qualTypedarray ty = none →
        reg ty = false →
        to_rust_type ty reg = RustTy.BuiltinIdent ty) ∧
    to_module_name (bytes "") = bytes "" ∧
    (∀ s : List Nat, is_valid_ident s = true →
        safe_ident_checked s = some (safe_ident s) ∧
        (safe_ident s = s ∨ safe_ident s = s ++ [95])) := by
  refine ⟨?_, by decide, ?_⟩
  · intro ty reg h0 h1 h1b h2 h3 hreg
    rw [to_rust_type, trtf_fallback h0 h1 h1b h2 h3, hreg]
    simp
  · intro s hv
    constructor
    · rw [safe_ident_checked, safe_ident]
      by_cases hk : s ∈ rust_keywords
      · rw [if_pos hk, if_pos hk, identChecked, if_pos (valid_ident_append_95 hv)]
        rfl
      · rw [if_neg hk, if_neg hk, identChecked, if_pos hv]
        rfl
    · rw [safe_ident]
      by_cases hk : s ∈ rust_keywords
      · rw [if_pos hk]
        right
        rfl
      · rw [if_neg hk]
        left
        rfl

/-- Claim C1 witness: concrete fallback resolution, and a keyword escaped
without aborting. -/
theorem spec_c1_witness :
    to_rust_type (bytes "SomeEngineClass") (fun _ => false) =
      RustTy.BuiltinIdent (bytes "SomeEngineClass") ∧
    safe_ident_checked (bytes "fn") = some (bytes "fn_") := by
  constructor
  · exact spec_c1_total_fallback.1 (bytes "SomeEngineClass") (fun _ => false)
      (by decide) (by decide) (by decide) (by decide) (by decide) rfl
  · have h := (spec_c1_total_fallback.2.2 (bytes "fn") (by decide)).1
    exact h.trans (by decide)

/-- Claim C4: the hardcoded override table is consulted first: each of the six
table entries resolves to the mapped `BuiltinIdent` for every registry, and
the qualified names never produce an `EngineEnum`. -/
theorem spec_c4_overrides : ∀ reg : List Nat → Bool,
    to_rust_type (bytes "int") reg = RustTy.BuiltinIdent (bytes "i64") ∧
    to_rust_type (bytes "float") reg = RustTy.BuiltinIdent (bytes "f64") ∧
    to_rust_type (bytes "String") reg = RustTy.BuiltinIdent (bytes "GodotString") ∧
    to_rust_type (bytes "enum::Variant.Type") reg =
      RustTy.BuiltinIdent (bytes "VariantType") ∧
    to_rust_type (bytes "enum::Variant.Operator") reg =
      RustTy.BuiltinIdent (bytes "VariantOperator") ∧
    to_rust_type (bytes "enum::Vector3.Axis") reg =
      RustTy.BuiltinIdent (bytes "Vector3Axis") ∧
    (∀ p, to_rust_type (bytes "enum::Variant.Type") reg ≠ RustTy.EngineEnum p) ∧
    (∀ p, to_rust_type (bytes "enum::Variant.Operator") reg ≠ RustTy.EngineEnum p) ∧
    (∀ p, to_rust_type (bytes "enum::Vector3.Axis") reg ≠ RustTy.EngineEnum p) := by
  intro reg
  have h1 : to_hardcoded_rust_type (bytes "int") = some (bytes "i64") := by decide
  have h2 : to_hardcoded_rust_type (bytes "float") = some (bytes "f64") := by decide
  have h3 : to_hardcoded_rust_type (bytes "String") = some (bytes "GodotString") := by
    decide
  have h4 : to_hardcoded_rust_type (bytes "enum::Variant.Type") =
      some (bytes "VariantType") := by decide
  have h5 : to_hardcoded_rust_type (bytes "enum::Variant.Operator") =
      some (bytes "VariantOperator") := by decide
  have h6 : to_hardcoded_rust_type (bytes "enum::Vector3.Axis") =
      some (bytes "Vector3Axis") := by decide
  refine ⟨by rw [to_rust_type]; exact trtf_hc h1, by rw [to_rust_type]; exact trtf_hc h2,
    by rw [to_rust_type]; exact trtf_hc h3, by rw [to_rust_type]; exact trtf_hc h4,
    by rw [to_rust_type]; exact trtf_hc h5, by rw [to_rust_type]; exact trtf_hc h6,
    ?_, ?_, ?_⟩
  · intro p h
    rw [to_rust_type, trtf_hc h4] at h
    exact RustTy.noConfusion h
  · intro p h
    rw [to_rust_type, trtf_hc h5] at h
    exact RustTy.noConfusion h
  · intro p h
    rw [to_rust_type, trtf_hc h6] at h
    exact RustTy.noConfusion h

/-- Claim C10: a qualified `enum::`/`bitfield::` name not in the override
table resolves by splitting at the first dot: with a dot, to the class-local
path `to_module_name(class)::EnumName` (enum side verbatim); without a dot,
to the global path. -/
theorem spec_c10_qualified_enum : ∀ (reg : List Nat → Bool),
    (∀ cls en, (∀ x ∈ cls, x ≠ 46) →
        to_hardcoded_rust_type (qualEnum ++ (cls ++ 46 :: en)) = none →
        to_rust_type (qualEnum ++ (cls ++ 46 :: en)) reg =
          RustTy.EngineEnum (EnumPath.classLocal (to_module_name cls) en)) ∧
    (∀ r, (∀ x ∈ r, x ≠ 46) →
        to_hardcoded_rust_type (qualEnum ++ r) = none →
        to_rust_type (qualEnum ++ r) reg = RustTy.EngineEnum (EnumPath.global r)) ∧
    (∀ cls en, (∀ x ∈ cls, x ≠ 46) →
        to_hardcoded_rust_type (qualBitfield ++ (cls ++ 46 :: en)) = none →
        to_rust_type (qualBitfield ++ (cls ++ 46 :: en)) reg =
          RustTy.EngineEnum (EnumPath.classLocal (to_module_name cls) en)) ∧
    (∀ r, (∀ x ∈ r, x ≠ 46) →
        to_hardcoded_rust_type (qualBitfield ++ r) = none →
        to_rust_type (qualBitfield ++ r) reg = RustTy.EngineEnum (EnumPath.global r)) := by
  intro reg
  refine ⟨?_, ?_, ?_, ?_⟩
  · intro cls en hnd h0
    rw [to_rust_type,
      trtf_enum_local h0 (stripPfx_append qualEnum _) (splitOnce_append en hnd)]
  · intro r hnd h0
    rw [to_rust_type, trtf_enum_global h0 (stripPfx_append qualEnum _) (splitOnce_none hnd)]
  · intro cls en hnd h0
    have h1 : stripPfx qualEnum (qualBitfield ++ (cls ++ 46 :: en)) = none :=
      stripPfx_none (by simp [qualEnum, qualBitfield, leadEq])
    rw [to_rust_type,
      trtf_bitfield_local h0 h1 (stripPfx_append qualBitfield _) (splitOnce_append en hnd)]
  · intro r hnd h0
    have h1 : stripPfx qualEnum (qualBitfield ++ r) = none :=
      stripPfx_none (by simp [qualEnum, qualBitfield, leadEq])
    rw [to_rust_type,
      trtf_bitfield_global h0 h1 (stripPfx_append qualBitfield _) (splitOnce_none hnd)]

/-- Claim C10 witness: `enum::Foo.Bar` resolves to the class-local path with
module `to_module_name("Foo") = "foo"` and enum name `Bar` verbatim. -/
theorem spec_c10_witness :
    to_rust_type (bytes "enum::Foo.Bar") (fun _ => false) =
      RustTy.EngineEnum (EnumPath.classLocal (bytes "foo") (bytes "Bar")) := by
  have h := (spec_c10_qualified_enum (fun _ => false)).1 (bytes "Foo") (bytes "Bar")
    (by decide) (by decide)
  have e1 : qualEnum ++ (bytes "Foo" ++ 46 :: bytes "Bar") = bytes "enum::Foo.Bar" := by
    decide
  have e2 : to_module_name (bytes "Foo") = bytes "foo" := by decide
  rw [e1, e2] at h
  exact h

/-- Claim C3 counterexample: `typedarray::PackedScene` resolves to
`BuiltinIdent "Scene"`, while the packed-array rule (case 3) applied to the
remainder `PackedScene` — i.e. resolving `PackedScene` itself, which falls
through case 3 to the fallback — yields `BuiltinIdent "PackedScene"`; the two
results differ, so the typedarray branch is **not** "the same result as the
packed-array rule applied to rest". -/
theorem spec_c3_counterexample :
    to_rust_type (bytes "typedarray::PackedScene") (fun _ => false) =
      RustTy.BuiltinIdent (bytes "Scene") ∧
    to_rust_type (bytes "PackedScene") (fun _ => false) =
      RustTy.BuiltinIdent (bytes "PackedScene") ∧
    RustTy.BuiltinIdent (bytes "Scene") ≠ RustTy.BuiltinIdent (bytes "PackedScene") := by
  refine ⟨by decide, by decide, by decide⟩

/-- Claim C3 (amended): for `typedarray::rest` not in the override table: if
`rest` starts with `Packed`, the result is `BuiltinIdent` of the remainder of
`rest` after the `Packed` prefix, with no check of the `Array` suffix;
otherwise the result is `BuiltinGeneric` wrapping the recursive resolution of
`rest`. -/
theorem spec_c3_typedarray : ∀ (rest : List Nat) (reg : List Nat → Bool),
    to_hardcoded_rust_type (qualTypedarray ++ rest) = none →
    (∀ packed, stripPfx packedLit rest = some packed →
        to_rust_type (qualTypedarray ++ rest) reg = RustTy.BuiltinIdent packed) ∧
    (stripPfx packedLit rest = none →
        to_rust_type (qualTypedarray ++ rest) reg =
          RustTy.BuiltinGeneric (to_rust_type rest reg)) := by
  intro rest reg h0
  have h1 : stripPfx qualEnum (qualTypedarray ++ rest) = none :=
    stripPfx_none (by simp [qualEnum, qualTypedarray, leadEq])
  have h1b : stripPfx qualBitfield (qualTypedarray ++ rest) = none :=
    stripPfx_none (by simp [qualBitfield, qualTypedarray, leadEq])
  have h2 : stripPfx packedLit (qualTypedarray ++ rest) = none :=
    stripPfx_none (by simp [packedLit, qualTypedarray, leadEq])
  have h3 : stripPfx qualTypedarray (qualTypedarray ++ rest) = some rest :=
    stripPfx_append qualTypedarray rest
  refine ⟨?_, ?_⟩
  · intro packed h4
    rw [to_rust_type, trtf_tda_packed h0 h1 h1b h2 h3 h4]
  · intro h4
    have hlen : (qualTypedarray ++ rest).length = (11 + rest.length) + 1 := by
      simp [qualTypedarray]
      omega
    rw [to_rust_type, hlen, trtf_tda_rec h0 h1 h1b h2 h3 h4,
      to_rust_type_f_fuel (11 + rest.length) rest reg (by omega)]

/-- Claim C3 witness: `typedarray::PackedByteArray` is the packed builtin
`ByteArray`, not a generic wrapper. -/
theorem spec_c3_witness :
    to_rust_type (bytes "typedarray::PackedByteArray") (fun _ => false) =
      RustTy.BuiltinIdent (bytes "ByteArray") := by
  have h := (spec_c3_typedarray (bytes "PackedByteArray") (fun _ => false)
      (by decide)).1 (bytes "ByteArray") (by decide)
  have e1 : qualTypedarray ++ bytes "PackedByteArray" =
      bytes "typedarray::PackedByteArray" := by decide
  rw [e1] at h
  exact h

lemma tailEq_append_of_le {pat r : List Nat} (x : List Nat) (h : pat.length ≤ r.length) :
    tailEq pat (x ++ r) = tailEq pat r := by
  unfold tailEq
  rw [List.reverse_append]
  exact leadEq_append_of_le _ (by simpa using h)

/-- `"Packed" ++ r` ends with `"Array"` exactly when the remainder `r` does:
for `r` shorter than five bytes both sides are false (the overlap with the
`"Packed"` prefix cannot spell `"Array"`). -/
lemma tailEq_packed_bridge {ty : List Nat} (hp : leadEq packedLit ty = true) :
    tailEq arrayLit (ty.drop 6) = tailEq arrayLit ty := by
  have hty : ty = packedLit ++ ty.drop 6 := by
    have h := leadEq_eq_append hp
    simpa [packedLit] using h
  rcases hr : ty.drop 6 with _ | ⟨a, _ | ⟨b, _ | ⟨c, _ | ⟨d, _ | ⟨e, r⟩⟩⟩⟩⟩ <;>
    rw [hr] at hty <;> rw [hty]
  case cons.cons.cons.cons.cons =>
    exact (tailEq_append_of_le packedLit
      (by simp only [arrayLit, List.length_cons, List.length_nil]; omega)).symm
  all_goals simp [packedLit, arrayLit, tailEq, leadEq]

/-- Claim C2: a raw name not in the override table that starts with `Packed`
resolves to `BuiltinIdent` of the remainder after the `Packed` prefix when it
ends with `Array`, and otherwise falls through to engine-class or fallback
resolution. -/
theorem spec_c2_packed_array : ∀ (ty : List Nat) (reg : List Nat → Bool),
    to_hardcoded_rust_type ty = none → leadEq packedLit ty = true →
    (tailEq arrayLit ty = true →
        to_rust_type ty reg = RustTy.BuiltinIdent (ty.drop 6)) ∧
    (tailEq arrayLit ty = false →
        to_rust_type ty reg =
          if reg ty then RustTy.EngineClass ty else RustTy.BuiltinIdent ty) := by
  intro ty reg h0 hp
  have hty : ty = packedLit ++ ty.drop 6 := by
    have h := leadEq_eq_append hp
    simpa [packedLit] using h
  have h1 : stripPfx qualEnum ty = none := by
    rw [hty]
    exact stripPfx_none (by simp [qualEnum, packedLit, leadEq])
  have h1b : stripPfx qualBitfield ty = none := by
    rw [hty]
    exact stripPfx_none (by simp [qualBitfield, packedLit, leadEq])
  have h2 : stripPfx packedLit ty = some (ty.drop 6) := stripPfx_some hp
  constructor
  · intro ha
    have h3 : tailEq arrayLit (ty.drop 6) = true := by
      rw [tailEq_packed_bridge hp, ha]
    rw [to_rust_type, trtf_packed h0 h1 h1b h2 h3]
  · intro ha
    have h3 : tailEq arrayLit (ty.drop 6) = false := by
      rw [tailEq_packed_bridge hp, ha]
    rw [to_rust_type, trtf_packed_no_array h0 h1 h1b h2 h3]

/-- Claim C2 witness: `PackedInt32Array` is the packed builtin `Int32Array`,
and `PackedScene` is not matched by the packed-array rule (falls through to
the registry / fallback). -/
theorem spec_c2_witness :
    to_rust_type (bytes "PackedInt32Array") (fun _ => false) =
      RustTy.BuiltinIdent (bytes "Int32Array") ∧
    to_rust_type (bytes "PackedScene") (fun _ => true) =
      RustTy.EngineClass (bytes "PackedScene") := by
  constructor
  · have h := (spec_c2_packed_array (bytes "PackedInt32Array") (fun _ => false)
      (by decide) (by decide)).1 (by decide)
    exact h.trans (by decide)
  · have h := (spec_c2_packed_array (bytes "PackedScene") (fun _ => true)
      (by decide) (by decide)).2 (by decide)
    exact h.trans (by decide)

/-- Claim C9: for a bitfield descriptor the generated definition has a
zero-ordinal `UNSET` constant and a `BitOr` impl; combining two values takes
the bitwise OR of the underlying ordinals, stays a value of the same 32-bit
type, is associative and commutative, satisfies `x | UNSET = x`, and for
ordinals 1 and 2 gives ordinal 3. -/
theorem spec_c9_bitfield : ∀ e : EnumInfo, e.is_bitfield = true →
    (make_enum_definition e).unsetConstant = some UNSET ∧
    (make_enum_definition e).hasBitOrImpl = true ∧
    ordI64 UNSET = 0 ∧
    (∀ a b : EnumVal, (enumValBitOr a b).ord = Nat.lor a.ord b.ord) ∧
    (∀ a b : EnumVal, a.ord < 4294967296 → b.ord < 4294967296 →
        (enumValBitOr a b).ord < 4294967296) ∧
    (∀ a b c : EnumVal, enumValBitOr (enumValBitOr a b) c = enumValBitOr a (enumValBitOr b c)) ∧
    (∀ a b : EnumVal, enumValBitOr a b = enumValBitOr b a) ∧
    (∀ x : EnumVal, enumValBitOr x UNSET = x) ∧
    enumValBitOr ⟨1⟩ ⟨2⟩ = ⟨3⟩ := by
  intro e hbf
  refine ⟨?_, ?_, by decide, fun a b => rfl, ?_, ?_, ?_, ?_, by decide⟩
  · simp [make_enum_definition, hbf]
  · simp [make_enum_definition, hbf]
  · intro a b ha hb
    have h32 : (4294967296 : Nat) = 2 ^ 32 := by norm_num
    rw [h32] at ha hb ⊢
    exact Nat.bitwise_lt_two_pow ha hb
  · intro a b c
    show (⟨(a.ord ||| b.ord) ||| c.ord⟩ : EnumVal) = ⟨a.ord ||| (b.ord ||| c.ord)⟩
    rw [Nat.or_assoc]
  · intro a b
    show (⟨a.ord ||| b.ord⟩ : EnumVal) = ⟨b.ord ||| a.ord⟩
    rw [Nat.or_comm]
  · intro x
    show (⟨x.ord ||| 0⟩ : EnumVal) = x
    rw [Nat.or_zero]

/-- Claim C9 witness: a concrete bitfield descriptor with enumerators
`A = 1`, `B = 2`. -/
theorem spec_c9_witness :
    (make_enum_definition ⟨bytes "SomeFlags",
        [⟨bytes "A", 1⟩, ⟨bytes "B", 2⟩], true⟩).unsetConstant = some UNSET ∧
    enumValBitOr ⟨1⟩ ⟨2⟩ = ⟨3⟩ := by
  have h := spec_c9_bitfield ⟨bytes "SomeFlags", [⟨bytes "A", 1⟩, ⟨bytes "B", 2⟩], true⟩ rfl
  exact ⟨h.1, h.2.2.2.2.2.2.2.2⟩

lemma not_lower_of_upper_or_num {c : Nat} (h : is_upper_or_num (some c) = true) :
    is_ascii_lowercase c = false := by
  simp only [is_upper_or_num, is_ascii_digit, is_ascii_uppercase, is_ascii_lowercase,
    Bool.or_eq_true, decide_eq_true_eq, decide_eq_false_iff_not] at h ⊢
  omega

/-- Claim C5 counterexample: in `"ABC"` the final `C` satisfies all four
claimed conditions with the name ending after it (preceding `B` and
two-back `A` upper-or-digit), yet the loop inserts no separator — the
end-of-name case does **not** count as "next is lower"
(`is_lower_or(next, false)` defaults to false), so
`to_module_name "ABC" = "abc"` with no separator at all. -/
theorem spec_c5_counterexample :
    is_upper_or_num (some 65) = true ∧ is_upper_or_num (some 66) = true ∧
    is_upper_or_num (some 67) = true ∧
    sepQ (some 65) (some 66) 67 none = false ∧
    to_module_name (bytes "ABC") = bytes "abc" := by decide

/-- Claim C5 (amended): a separator is inserted before the current character
whenever the preceding character is upper-or-digit, the current character is
upper-or-digit, the next character **exists** and is lower, and the character
two positions back is upper-or-digit; when the name ends after the current
character the condition does not fire. -/
theorem spec_c5_caps_transition : ∀ p2 p1 c n2 : Nat,
    is_upper_or_num (some p1) = true → is_upper_or_num (some c) = true →
    is_ascii_lowercase n2 = true → is_upper_or_num (some p2) = true →
    sepQ (some p2) (some p1) c (some n2) = true ∧
    ∀ rest : List Nat, tmn_loop (c :: n2 :: rest) (some p2) (some p1) =
      95 :: to_ascii_lowercase c :: tmn_loop (n2 :: rest) (some p1) (some c) := by
  intro p2 p1 c n2 h1 h2 h3 h4
  have hsep : sepQ (some p2) (some p1) c (some n2) = true := by
    simp [sepQ, is_lower_or, h1, h2, h3, not_lower_of_upper_or_num h4]
  refine ⟨hsep, fun rest => ?_⟩
  simp [tmn_loop, List.head?, hsep]

/-- Claim C5 witness: concrete transition `A B | C a`. -/
theorem spec_c5_witness :
    sepQ (some 65) (some 66) 67 (some 97) = true ∧
    tmn_loop [67, 97] (some 65) (some 66) = [95, 99, 97] :=
  have h := spec_c5_caps_transition 65 66 67 97 (by decide) (by decide) (by decide) (by decide)
  ⟨h.1, by rw [h.2 []]; decide⟩

/-- Claim C6 counterexample: `to_module_name("GDNative")` **does** equal
`"gdnative_"` — the loop yields `gd_native`, the substring fix turns it into
the bare `gdnative`, and the collision rule then appends the separator. -/
theorem spec_c6_counterexample :
    to_module_name (bytes "GDNative") = bytes "gdnative_" := by decide

/-- Claim C6 (amended): `to_module_name("GDNative") = "gdnative_"` (its
processed result is the bare `gdnative`), and the trailing separator is
appended exactly when the fully processed result equals `gdnative`: whenever
the final output differs from the processed result, the processed result is
`gdnative` and the output is `gdnative` + `'_'`. -/
theorem spec_c6_gdnative :
    to_module_name (bytes "GDNative") = bytes "gdnative_" ∧
    ∀ s : List Nat, to_module_name s ≠ tmn_core s →
      tmn_core s = gdnRep ∧ to_module_name s = gdnRep ++ [95] := by
  refine ⟨by decide, ?_⟩
  intro s hne
  unfold to_module_name at *
  by_cases h : tmn_core s = gdnRep
  · exact ⟨h, by simp [h]⟩
  · exact absurd (by simp [h]) hne

/-- Claim C6 witness: the input `GDNative` itself takes the appending branch. -/
theorem spec_c6_witness :
    tmn_core (bytes "GDNative") = gdnRep ∧
    to_module_name (bytes "GDNative") = gdnRep ++ [95] :=
  spec_c6_gdnative.2 (bytes "GDNative") (by decide)

/-- No underscore (byte 95) immediately followed by another underscore. -/
def noDoubleSep (l : List Nat) : Prop :=
  List.Chain' (fun a b => ¬(a = 95 ∧ b = 95)) l

/-- Any two occurrences of byte 95 are at least three positions apart
(checked over a sliding window of three). -/
def sepOK : List Nat → Bool
  | a :: b :: rest => !(a == 95 && b == 95) && !(a == 95 && rest.headD 0 == 95)
      && sepOK (b :: rest)
  | _ => true

lemma sepOK_tail {x : Nat} {l : List Nat} (h : sepOK (x :: l) = true) : sepOK l = true := by
  cases l with
  | nil => rfl
  | cons b rest =>
    simp only [sepOK, Bool.and_eq_true] at h
    exact h.2

lemma sepOK_cons_ne {x : Nat} (l : List Nat) (hx : x ≠ 95) :
    sepOK (x :: l) = sepOK l := by
  cases l with
  | nil => simp [sepOK]
  | cons b rest => simp [sepOK, hx]

lemma sepOK_cons95 (l : List Nat) :
    sepOK (95 :: l) = true ↔
      l.headD 0 ≠ 95 ∧ l.tail.headD 0 ≠ 95 ∧ sepOK l = true := by
  cases l with
  | nil => simp [sepOK]
  | cons b rest =>
    cases rest with
    | nil => simp [sepOK]
    | cons c r2 => simp [sepOK, and_assoc]

lemma sepOK_append_right {u v : List Nat} (h : sepOK (u ++ v) = true) : sepOK v = true := by
  induction u with
  | nil => exact h
  | cons x us ih => exact ih (sepOK_tail h)

lemma sepOK_noDoubleSep {l : List Nat} (h : sepOK l = true) : noDoubleSep l := by
  induction l with
  | nil => exact List.chain'_nil
  | cons x rest ih =>
    rw [noDoubleSep, List.chain'_cons']
    refine ⟨?_, ih (sepOK_tail h)⟩
    intro y hy
    cases rest with
    | nil => simp at hy
    | cons b r2 =>
      simp only [List.head?_cons, Option.mem_def, Option.some.injEq] at hy
      subst hy
      simp only [sepOK, Bool.and_eq_true, Bool.not_eq_true'] at h
      intro hxy
      have := h.1.1
      simp [hxy.1, hxy.2] at this

lemma lower_disjoint {c : Nat} (h : is_ascii_lowercase c = true) :
    is_upper_or_num (some c) = false := by
  simp only [is_upper_or_num, is_ascii_digit, is_ascii_uppercase, is_ascii_lowercase,
    Bool.or_eq_false_iff, decide_eq_true_eq, decide_eq_false_iff_not] at h ⊢
  omega

/-- The loop never fires the separator in two consecutive iterations: if the
separator fires at a character whose successor exists, it cannot fire at that
successor. -/
lemma sepQ_consec {p2 p1 : Option Nat} {c c2 : Nat}
    (h : sepQ p2 p1 c (some c2) = true) (nx : Option Nat) :
    sepQ p1 (some c) c2 nx = false := by
  simp only [sepQ, Bool.or_eq_true, Bool.and_eq_true] at h
  rcases h with ⟨⟨⟨hp1, hc⟩, hn⟩, hp2⟩ | ⟨hp1, hc⟩
  · -- caps fired: the next character is lower, so it is not upper-or-num
    have hc2 : is_upper_or_num (some c2) = false :=
      lower_disjoint (by simpa [is_lower_or] using hn)
    simp [sepQ, hc2]
  · -- lower-to-upper fired: p1 is lower and c is upper-or-num
    have hcl : is_ascii_lowercase c = false := not_lower_of_upper_or_num hc
    cases p1 with
    | none => simp [is_lower_or] at hp1
    | some p =>
      simp only [is_lower_or] at hp1
      simp [sepQ, is_lower_or, hp1, hcl]

lemma lc_ne_95 {c : Nat} (hc : c ≠ 95) : to_ascii_lowercase c ≠ 95 := by
  unfold to_ascii_lowercase
  split
  · rename_i h
    simp only [is_ascii_uppercase, decide_eq_true_eq] at h
    omega
  · exact hc

lemma lc_not_upper (c : Nat) : is_ascii_uppercase (to_ascii_lowercase c) = false := by
  unfold to_ascii_lowercase
  split
  · rename_i h
    simp only [is_ascii_uppercase, decide_eq_true_eq, decide_eq_false_iff_not] at h ⊢
    omega
  · rename_i h
    simpa using h

/-- Loop invariant: on underscore-free input the output satisfies `sepOK`,
and when the first iteration does not fire the separator the output starts
with the lowercased first character. -/
lemma tmn_loop_main : ∀ (cs : List Nat) (p2 p1 : Option Nat), (∀ c ∈ cs, c ≠ 95) →
    sepOK (tmn_loop cs p2 p1) = true ∧
    ∀ c rest, cs = c :: rest → sepQ p2 p1 c rest.head? = false →
      (tmn_loop cs p2 p1).headD 0 = to_ascii_lowercase c := by
  intro cs
  induction cs with
  | nil => intro p2 p1 h; exact ⟨rfl, by intro c rest hcs; cases hcs⟩
  | cons c rest ih =>
    intro p2 p1 h
    have hc : c ≠ 95 := h c (by simp)
    have hrest : ∀ x ∈ rest, x ≠ 95 := fun x hx => h x (by simp [hx])
    have IH := ih p1 (some c) hrest
    constructor
    · cases hsep : sepQ p2 p1 c rest.head? with
      | false =>
        have : tmn_loop (c :: rest) p2 p1 =
            to_ascii_lowercase c :: tmn_loop rest p1 (some c) := by
          simp [tmn_loop, hsep]
        rw [this, sepOK_cons_ne _ (lc_ne_95 hc)]
        exact IH.1
      | true =>
        have hout : tmn_loop (c :: rest) p2 p1 =
            95 :: to_ascii_lowercase c :: tmn_loop rest p1 (some c) := by
          simp [tmn_loop, hsep]
        rw [hout, sepOK_cons95]
        refine ⟨by simpa using lc_ne_95 hc, ?_, ?_⟩
        · cases rest with
          | nil => simp [tmn_loop]
          | cons c2 r2 =>
            have hs2 : sepQ p1 (some c) c2 r2.head? = false :=
              sepQ_consec (by simpa using hsep) _
            have hh := IH.2 c2 r2 rfl hs2
            simp only [List.tail_cons]
            rw [hh]
            exact lc_ne_95 (hrest c2 (by simp))
        · rw [sepOK_cons_ne _ (lc_ne_95 hc)]
          exact IH.1
    · intro c' rest' hcs hsep
      obtain ⟨rfl, rfl⟩ : c' = c ∧ rest' = rest := by
        injection hcs with h1 h2; exact ⟨h1.symm ▸ rfl, h2.symm ▸ rfl⟩
      simp [tmn_loop, hsep]

/-- Every byte of the loop output is a separator or a lowercased input byte:
none is an ASCII uppercase letter. -/
lemma tmn_loop_noUpper : ∀ (cs : List Nat) (p2 p1 : Option Nat),
    ∀ x ∈ tmn_loop cs p2 p1, is_ascii_uppercase x = false := by
  intro cs
  induction cs with
  | nil => intro p2 p1 x hx; simp [tmn_loop] at hx
  | cons c rest ih =>
    intro p2 p1 x hx
    cases hsep : sepQ p2 p1 c rest.head? with
    | false =>
      rw [show tmn_loop (c :: rest) p2 p1 =
          to_ascii_lowercase c :: tmn_loop rest p1 (some c) by simp [tmn_loop, hsep]] at hx
      rcases List.mem_cons.1 hx with rfl | hx
      · exact lc_not_upper c
      · exact ih p1 (some c) x hx
    | true =>
      rw [show tmn_loop (c :: rest) p2 p1 =
          95 :: to_ascii_lowercase c :: tmn_loop rest p1 (some c) by
        simp [tmn_loop, hsep]] at hx
      rcases List.mem_cons.1 hx with rfl | hx
      · decide
      rcases List.mem_cons.1 hx with rfl | hx
      · exact lc_not_upper c
      · exact ih p1 (some c) x hx

/-- `replaceFirst` either leaves the list unchanged or replaces exactly one
occurrence of the pattern. -/
lemma replaceFirst_spec (l pat rep : List Nat) :
    replaceFirst l pat rep = l ∨
    ∃ a b, l = a ++ pat ++ b ∧ replaceFirst l pat rep = a ++ rep ++ b := by
  induction l with
  | nil => left; rfl
  | cons c rest ih =>
    by_cases hle : leadEq pat (c :: rest) = true
    · right
      refine ⟨[], (c :: rest).drop pat.length, ?_, ?_⟩
      · rw [List.nil_append]; exact leadEq_eq_append hle
      · simp [replaceFirst, hle]
    · have hrw : replaceFirst (c :: rest) pat rep = c :: replaceFirst rest pat rep := by
        simp [replaceFirst, hle]
      rcases ih with heq | ⟨a, b, hab, hrep⟩
      · left; rw [hrw, heq]
      · right
        exact ⟨c :: a, b, by simp [hab], by simp [hrw, hrep]⟩

lemma replaceFirst_all {P : Nat → Prop} {l pat rep : List Nat}
    (hl : ∀ x ∈ l, P x) (hr : ∀ x ∈ rep, P x) :
    ∀ x ∈ replaceFirst l pat rep, P x := by
  rcases replaceFirst_spec l pat rep with heq | ⟨a, b, hab, hrep⟩
  · rw [heq]; exact hl
  · rw [hrep]
    intro x hx
    rcases List.mem_append.1 hx with hx | hx
    · rcases List.mem_append.1 hx with hx | hx
      · exact hl x (by rw [hab]; simp [hx])
      · exact hr x hx
    · exact hl x (by rw [hab]; simp [hx])

/-- Replacing a pattern by a replacement whose two boundary bytes are not
separators preserves `noDoubleSep`. -/
lemma replaceFirst_noDoubleSep {l pat : List Nat} {r0 : Nat} {rtl : List Nat}
    (hl : noDoubleSep l) (hrep : noDoubleSep (r0 :: rtl))
    (hh : r0 ≠ 95) (hlast : (r0 :: rtl).getLast (by simp) ≠ 95) :
    noDoubleSep (replaceFirst l pat (r0 :: rtl)) := by
  rcases replaceFirst_spec l pat (r0 :: rtl) with heq | ⟨a, b, hab, hrw⟩
  · rw [heq]; exact hl
  · rw [hrw]
    rw [hab] at hl
    unfold noDoubleSep at *
    rw [List.append_assoc] at hl
    rw [List.append_assoc, List.chain'_append]
    obtain ⟨ha, hpb, hbound⟩ := List.chain'_append.1 hl
    refine ⟨ha, ?_, ?_⟩
    · rw [List.chain'_append]
      refine ⟨hrep, (List.chain'_append.1 hpb).2.1, ?_⟩
      intro x hx y hy
      have hx95 : x ≠ 95 := by
        rw [List.getLast?_eq_getLast _ (by simp)] at hx
        simp only [Option.mem_def, Option.some.injEq] at hx
        rw [← hx]
        exact hlast
      exact fun hc => hx95 hc.1
    · intro x hx y hy
      have hy95 : y = r0 := by
        rw [List.cons_append, List.head?_cons] at hy
        simp only [Option.mem_def, Option.some.injEq] at hy
        exact hy.symm
      exact fun hc => hh (hy95 ▸ hc.2)

lemma sepOK_95_95 {y : Nat} {b : List Nat} (h : sepOK (95 :: y :: b) = true) :
    b.headD 0 ≠ 95 := by
  rw [sepOK_cons95] at h
  simpa using h.2.1

/-- The `_vec_3` → `_vec3_` correction preserves `noDoubleSep` on any string
satisfying the stronger loop invariant `sepOK`: the trailing separator of the
replacement never meets a separator, because in the original string the byte
after the `_3` of an occurrence is at distance two from a separator. -/
lemma replaceFirst_vec {l : List Nat} (hs : sepOK l = true) :
    noDoubleSep (replaceFirst l vecPat vecRep) := by
  rcases replaceFirst_spec l vecPat vecRep with heq | ⟨a, b, hab, hrw⟩
  · rw [heq]; exact sepOK_noDoubleSep hs
  · rw [hrw]
    have hl := sepOK_noDoubleSep hs
    rw [hab] at hl hs
    unfold noDoubleSep at *
    rw [List.append_assoc] at hl
    rw [List.append_assoc, List.chain'_append]
    obtain ⟨ha, hpb, hbound⟩ := List.chain'_append.1 hl
    have hbhead : b.headD 0 ≠ 95 := by
      have h1 : sepOK (vecPat ++ b) = true := by
        rw [List.append_assoc] at hs
        exact sepOK_append_right hs
      rw [show vecPat ++ b = 95 :: 118 :: 101 :: 99 :: 95 :: 51 :: b from rfl] at h1
      exact sepOK_95_95 (sepOK_tail (sepOK_tail (sepOK_tail (sepOK_tail h1))))
    refine ⟨ha, ?_, ?_⟩
    · rw [List.chain'_append]
      refine ⟨by simp [vecRep, List.chain'_cons], (List.chain'_append.1 hpb).2.1, ?_⟩
      intro x hx y hy
      have hy95 : y ≠ 95 := by
        cases b with
        | nil => simp at hy
        | cons c cs =>
          simp only [List.head?_cons, Option.mem_def, Option.some.injEq] at hy
          subst hy
          simpa using hbhead
      exact fun hc => hy95 hc.2
    · intro x hx y hy
      have hx95 : x ≠ 95 := by
        have h95 : (95 : Nat) ∈ (vecPat ++ b).head? := by simp [vecPat]
        exact fun hc => hbound x hx 95 h95 ⟨hc, rfl⟩
      exact fun hc => hx95 hc.1

/-- Claim C7: for every input string the output of `to_module_name` contains
no ASCII uppercase letter and no underscore immediately followed by another
underscore. -/
theorem spec_c7_output_invariant : ∀ s : List Nat,
    (∀ x ∈ to_module_name s, is_ascii_uppercase x = false) ∧
    noDoubleSep (to_module_name s) := by
  intro s
  have h95 : ∀ c ∈ s.filter (fun b => b != 95), c ≠ 95 := by
    intro c hc
    have h := (List.mem_filter.1 hc).2
    simpa using h
  have hs0 : sepOK (tmn_loop (s.filter (fun b => b != 95)) none none) = true :=
    (tmn_loop_main _ none none h95).1
  have hU0 : ∀ x ∈ tmn_loop (s.filter (fun b => b != 95)) none none,
      is_ascii_uppercase x = false :=
    fun x hx => tmn_loop_noUpper _ none none x hx
  have h1 : noDoubleSep (replaceFirst (tmn_loop (s.filter (fun b => b != 95)) none none)
      vecPat vecRep) := replaceFirst_vec hs0
  have hU1 : ∀ x ∈ replaceFirst (tmn_loop (s.filter (fun b => b != 95)) none none)
      vecPat vecRep, is_ascii_uppercase x = false :=
    replaceFirst_all hU0 (by decide)
  have h2 : noDoubleSep (replaceFirst (replaceFirst
      (tmn_loop (s.filter (fun b => b != 95)) none none) vecPat vecRep) gdnPat gdnRep) :=
    @replaceFirst_noDoubleSep _ _ 103 [100, 110, 97, 116, 105, 118, 101] h1
      (by simp [noDoubleSep, List.chain'_cons]) (by decide) (by decide)
  have hU2 : ∀ x ∈ replaceFirst (replaceFirst
      (tmn_loop (s.filter (fun b => b != 95)) none none) vecPat vecRep) gdnPat gdnRep,
      is_ascii_uppercase x = false :=
    replaceFirst_all hU1 (by decide)
  have h3 : noDoubleSep (tmn_core s) :=
    @replaceFirst_noDoubleSep _ _ 103 [100, 115, 99, 114, 105, 112, 116] h2
      (by simp [noDoubleSep, List.chain'_cons]) (by decide) (by decide)
  have hU3 : ∀ x ∈ tmn_core s, is_ascii_uppercase x = false :=
    replaceFirst_all hU2 (by decide)
  have hsplit : to_module_name s = tmn_core s ∨ to_module_name s = gdnRep ++ [95] := by
    unfold to_module_name
    by_cases hg : tmn_core s = gdnRep
    · right; simp [hg]
    · left; simp [hg]
  rcases hsplit with heq | heq <;> rw [heq]
  · exact ⟨hU3, h3⟩
  · exact ⟨by decide, by simp [noDoubleSep, gdnRep, List.chain'_cons]⟩

lemma lc_id {c : Nat} (h : is_upper_or_num (some c) = false) : to_ascii_lowercase c = c := by
  unfold to_ascii_lowercase
  simp only [is_upper_or_num, Bool.or_eq_false_iff] at h
  simp [h.2]

/-- On input with no upper-or-digit byte the loop is the identity: neither
separator rule can fire and lowercasing does nothing. -/
lemma tmn_loop_id : ∀ (cs : List Nat) (p2 p1 : Option Nat),
    (∀ c ∈ cs, is_upper_or_num (some c) = false) → tmn_loop cs p2 p1 = cs := by
  intro cs
  induction cs with
  | nil => intro p2 p1 h; rfl
  | cons c rest ih =>
    intro p2 p1 h
    have hc : is_upper_or_num (some c) = false := h c (by simp)
    have hsep : sepQ p2 p1 c rest.head? = false := by
      simp [sepQ, hc]
    rw [tmn_loop]
    simp only [hsep, if_false, Bool.false_eq_true]
    rw [lc_id hc, ih p1 (some c) (fun x hx => h x (by simp [hx]))]

/-- If some byte of the pattern never occurs in the string, `replaceFirst`
is the identity. -/
lemma replaceFirst_id {l pat rep : List Nat} {bad : Nat} (hbad : bad ∈ pat)
    (hl : ∀ c ∈ l, c ≠ bad) : replaceFirst l pat rep = l := by
  induction l with
  | nil => rfl
  | cons c rest ih =>
    have hle : leadEq pat (c :: rest) = false := by
      cases hle : leadEq pat (c :: rest) with
      | true => exact absurd rfl (hl bad (leadEq_mem hle bad hbad))
      | false => rfl
    rw [replaceFirst]
    simp only [hle, if_false, Bool.false_eq_true]
    rw [ih (fun x hx => hl x (by simp [hx]))]

/-- Claim C8: `to_module_name` is idempotent on input containing no ASCII
uppercase letter and no digit. -/
theorem spec_c8_idempotent : ∀ x : List Nat,
    (∀ c ∈ x, is_ascii_uppercase c = false ∧ is_ascii_digit c = false) →
    to_module_name (to_module_name x) = to_module_name x := by
  intro x hx
  have hup : ∀ c ∈ x.filter (fun b => b != 95), is_upper_or_num (some c) = false := by
    intro c hc
    have h := hx c (List.mem_filter.1 hc).1
    simp [is_upper_or_num, h.1, h.2]
  have h95 : ∀ c ∈ x.filter (fun b => b != 95), c ≠ 95 := by
    intro c hc
    have h := (List.mem_filter.1 hc).2
    simpa using h
  have hno51 : ∀ c ∈ x.filter (fun b => b != 95), c ≠ 51 := by
    intro c hc
    have h := (hx c (List.mem_filter.1 hc).1).2
    simp only [is_ascii_digit, decide_eq_false_iff_not] at h
    omega
  have hcore : tmn_core x = x.filter (fun b => b != 95) := by
    show replaceFirst (replaceFirst (replaceFirst
        (tmn_loop (x.filter (fun b => b != 95)) none none) vecPat vecRep)
        gdnPat gdnRep) gdsPat gdsRep = _
    rw [tmn_loop_id _ none none hup,
      replaceFirst_id (show (51 : Nat) ∈ vecPat by decide) hno51,
      replaceFirst_id (show (95 : Nat) ∈ gdnPat by decide) h95,
      replaceFirst_id (show (95 : Nat) ∈ gdsPat by decide) h95]
  by_cases hg : x.filter (fun b => b != 95) = gdnRep
  · have hy : to_module_name x = gdnRep ++ [95] := by
      unfold to_module_name
      simp [hcore, hg]
    rw [hy]
    decide
  · have hy : to_module_name x = x.filter (fun b => b != 95) := by
      unfold to_module_name
      simp [hcore, hg]
    rw [hy]
    have hff : (x.filter (fun b => b != 95)).filter (fun b => b != 95) =
        x.filter (fun b => b != 95) := by
      rw [List.filter_eq_self]
      intro a ha
      simpa using h95 a ha
    have hcore2 : tmn_core (x.filter (fun b => b != 95)) = x.filter (fun b => b != 95) := by
      show replaceFirst (replaceFirst (replaceFirst
          (tmn_loop ((x.filter (fun b => b != 95)).filter (fun b => b != 95)) none none)
          vecPat vecRep) gdnPat gdnRep) gdsPat gdsRep = _
      rw [hff, tmn_loop_id _ none none hup,
        replaceFirst_id (show (51 : Nat) ∈ vecPat by decide) hno51,
        replaceFirst_id (show (95 : Nat) ∈ gdnPat by decide) h95,
        replaceFirst_id (show (95 : Nat) ∈ gdsPat by decide) h95]
    unfold to_module_name
    simp [hcore2, hg]

/-- Claim C8 witness: concrete already-snake-case input. -/
theorem spec_c8_witness :
    to_module_name (to_module_name (bytes "foo_bar")) = to_module_name (bytes "foo_bar") :=
  spec_c8_idempotent (bytes "foo_bar") (by decide)
